import Mathlib

/-!
Verification of the word-learner spaced-repetition core.

The definitions below are a shallow embedding of the learning module
(SM-2 scheduler, due/new word selection, statistics, learning session)
of the word-learner repository.  JavaScript numbers are modelled by ℚ
(ease factors) and ℤ (intervals, millisecond timestamps); `Math.round`
is modelled by `jsRound`; JSON values that may be `null`/absent are
modelled by `Option`.  Wall-clock time is passed explicitly as `now`.
-/

/-- JavaScript `Math.round`: rounds half-way cases toward +∞. -/
def jsRound (q : ℚ) : ℤ := ⌊q + 1/2⌋

/-- Milliseconds in a day: `24 * 60 * 60 * 1000`. -/
def msPerDay : ℤ := 24 * 60 * 60 * 1000

namespace GRADES

def FORGOT : ℕ := 1

def HARD : ℕ := 2

def GOOD : ℕ := 3

def EASY : ℕ := 4

end GRADES

/-- A word's learning state: the seven fields of the stored record. -/
structure LearningState where
  level : ℕ
  easeFactor : ℚ
  interval : ℤ
  lastReviewedAt : Option ℤ
  nextReviewAt : Option ℤ
  reviewCount : ℕ
  correctCount : ℕ
deriving DecidableEq

/-- `DEFAULT_LEARNING` from the learning module. -/
def DEFAULT_LEARNING : LearningState :=
  { level := 0
    easeFactor := 2.5
    interval := 0
    lastReviewedAt := none
    nextReviewAt := none
    reviewCount := 0
    correctCount := 0 }

/-- `LEVEL_THRESHOLDS`: pairs `(minInterval, level)`, highest first. -/
def LEVEL_THRESHOLDS : List (ℤ × ℕ) :=
  [(21, 5), (14, 4), (7, 3), (1, 2), (0, 1)]

/-- `calculateLevel`: first threshold whose `minInterval` the interval
reaches wins; `0` (New) if none matches. -/
def calculateLevel (interval : ℤ) : ℕ :=
  match LEVEL_THRESHOLDS.find? (fun t => t.1 ≤ interval) with
  | some t => t.2
  | none => 0

/-- `calculateNextReview`: the SM-2 update of a learning state by a
grade, with the current time `now` (in ms) passed explicitly. -/
def calculateNextReview (now : ℤ) (learning : LearningState) (grade : ℕ) : LearningState :=
  if grade = GRADES.FORGOT then
    let interval : ℤ := 0
    let easeFactor : ℚ := max 1.3 (learning.easeFactor - 0.2)
    { level := calculateLevel interval
      easeFactor := easeFactor
      interval := interval
      lastReviewedAt := some now
      nextReviewAt := some (now + interval * msPerDay)
      reviewCount := learning.reviewCount + 1
      correctCount := learning.correctCount }
  else
    let interval : ℤ :=
      if learning.interval = 0 then 1
      else if learning.interval = 1 then 6
      else jsRound ((learning.interval : ℚ) * learning.easeFactor)
    let easeFactor : ℚ :=
      if grade = GRADES.HARD then max 1.3 (learning.easeFactor - 0.15)
      else if grade = GRADES.EASY then learning.easeFactor + 0.15
      else learning.easeFactor
    { level := calculateLevel interval
      easeFactor := easeFactor
      interval := interval
      lastReviewedAt := some now
      nextReviewAt := some (now + interval * msPerDay)
      reviewCount := learning.reviewCount + 1
      correctCount := learning.correctCount + 1 }

/-- Fold a sequence of reviews (time, grade) over a learning state. -/
def applyReviews (s : LearningState) (reviews : List (ℤ × ℕ)) : LearningState :=
  reviews.foldl (fun st r => calculateNextReview r.1 st r.2) s

/-- `calculateLevel` as the if-chain of §4.1 of the spec. -/
theorem calculateLevel_eq (i : ℤ) :
    calculateLevel i =
      (if 21 ≤ i then 5 else if 14 ≤ i then 4 else if 7 ≤ i then 3
       else if 1 ≤ i then 2 else if 0 ≤ i then 1 else 0) := by
  simp only [calculateLevel, LEVEL_THRESHOLDS, List.find?]
  split_ifs <;> simp_all [← not_le]

/-- C1: For every state and each successful grade (Hard, Good, Easy),
the new interval is 1 when the prior interval was 0, 6 when it was 1,
and round(interval × easeFactor) otherwise; the new easeFactor is
max(1.3, prior − 0.15) for Hard, prior + 0.15 for Easy, unchanged for
Good; and a fresh word graded Good three times gets intervals 1, 6, 15. -/
theorem C1_success_intervals_and_ease (now n1 n2 n3 : ℤ) (s : LearningState) :
    ((calculateNextReview now s GRADES.HARD).interval =
        (if s.interval = 0 then 1 else if s.interval = 1 then 6
         else jsRound ((s.interval : ℚ) * s.easeFactor))
      ∧ (calculateNextReview now s GRADES.GOOD).interval =
        (if s.interval = 0 then 1 else if s.interval = 1 then 6
         else jsRound ((s.interval : ℚ) * s.easeFactor))
      ∧ (calculateNextReview now s GRADES.EASY).interval =
        (if s.interval = 0 then 1 else if s.interval = 1 then 6
         else jsRound ((s.interval : ℚ) * s.easeFactor)))
    ∧ ((calculateNextReview now s GRADES.HARD).easeFactor =
        max 1.3 (s.easeFactor - 0.15)
      ∧ (calculateNextReview now s GRADES.GOOD).easeFactor = s.easeFactor
      ∧ (calculateNextReview now s GRADES.EASY).easeFactor = s.easeFactor + 0.15)
    ∧ ((calculateNextReview n1 DEFAULT_LEARNING GRADES.GOOD).interval = 1
      ∧ (calculateNextReview n2 (calculateNextReview n1 DEFAULT_LEARNING GRADES.GOOD)
          GRADES.GOOD).interval = 6
      ∧ (calculateNextReview n3 (calculateNextReview n2
          (calculateNextReview n1 DEFAULT_LEARNING GRADES.GOOD)
          GRADES.GOOD) GRADES.GOOD).interval = 15) := by
  refine ⟨⟨?_, ?_, ?_⟩, ⟨?_, ?_, ?_⟩, ?_, ?_, ?_⟩ <;>
    simp [calculateNextReview, GRADES.FORGOT, GRADES.HARD, GRADES.GOOD, GRADES.EASY,
      DEFAULT_LEARNING, jsRound]
  norm_num

/-- C2: Grading Forgot resets the interval to 0, drops the ease factor
by 0.2 floored at 1.3, increments reviewCount and leaves correctCount
unchanged. -/
theorem C2_forgot_resets (now : ℤ) (s : LearningState) :
    (calculateNextReview now s GRADES.FORGOT).interval = 0
    ∧ (calculateNextReview now s GRADES.FORGOT).easeFactor =
        max 1.3 (s.easeFactor - 0.2)
    ∧ (calculateNextReview now s GRADES.FORGOT).reviewCount = s.reviewCount + 1
    ∧ (calculateNextReview now s GRADES.FORGOT).correctCount = s.correctCount := by
  simp [calculateNextReview, GRADES.FORGOT]

/-- C3: The level of every state returned by `calculateNextReview` is a
function of the new interval alone, via the ordered thresholds evaluated
highest first (≥21→5, ≥14→4, ≥7→3, ≥1→2, ≥0→1, else 0); in particular
interval 0 after Forgot yields level 1, not 0. -/
theorem C3_level_from_interval (now : ℤ) (s : LearningState) (grade : ℕ) :
    (calculateNextReview now s grade).level =
      (if 21 ≤ (calculateNextReview now s grade).interval then 5
       else if 14 ≤ (calculateNextReview now s grade).interval then 4
       else if 7 ≤ (calculateNextReview now s grade).interval then 3
       else if 1 ≤ (calculateNextReview now s grade).interval then 2
       else if 0 ≤ (calculateNextReview now s grade).interval then 1 else 0)
    ∧ (calculateNextReview now s GRADES.FORGOT).level = 1 := by
  constructor
  · rw [← calculateLevel_eq]
    by_cases h : grade = GRADES.FORGOT <;> simp [calculateNextReview, h]
  · simp [calculateNextReview, GRADES.FORGOT, calculateLevel, LEVEL_THRESHOLDS, List.find?]

/-- correctCount after one review: incremented exactly when the grade
is not Forgot (the success branch covers Hard, Good and Easy). -/
theorem correctCount_step (now : ℤ) (s : LearningState) (g : ℕ) :
    (calculateNextReview now s g).correctCount =
      s.correctCount + (if g = GRADES.FORGOT then 0 else 1) := by
  by_cases h : g = GRADES.FORGOT <;> simp [calculateNextReview, h]

/-- correctCount over a sequence of reviews counts the non-Forgot grades. -/
theorem applyReviews_correctCount (s : LearningState) (reviews : List (ℤ × ℕ)) :
    (applyReviews s reviews).correctCount =
      s.correctCount + reviews.countP (fun r => !(r.2 == GRADES.FORGOT)) := by
  induction reviews generalizing s with
  | nil => simp [applyReviews]
  | cons r tl ih =>
      have hstep : applyReviews s (r :: tl) =
          applyReviews (calculateNextReview r.1 s r.2) tl := rfl
      rw [hstep, ih, correctCount_step, List.countP_cons]
      by_cases h : r.2 = GRADES.FORGOT <;> simp [h] <;> omega

/-- C4 as stated is false: one Hard grade (2) from the default state
yields correctCount 1, but the number of grades ≥ Good in [Hard] is 0. -/
theorem C4_counterexample :
    (applyReviews DEFAULT_LEARNING [((0:ℤ), GRADES.HARD)]).correctCount = 1
    ∧ ([((0:ℤ), GRADES.HARD)].countP (fun r => GRADES.GOOD ≤ r.2)) = 0 := by
  constructor <;> decide

/-- C4 amended: starting from the default state, correctCount equals the
number of grades ≥ Hard (2, 3 or 4), i.e. every non-Forgot grade counts,
Hard included. -/
theorem C4_amended_correctCount (reviews : List (ℤ × ℕ))
    (h : ∀ r ∈ reviews, 1 ≤ r.2 ∧ r.2 ≤ 4) :
    (applyReviews DEFAULT_LEARNING reviews).correctCount =
      reviews.countP (fun r => GRADES.HARD ≤ r.2) := by
  rw [applyReviews_correctCount]
  have hc : reviews.countP (fun r => !(r.2 == GRADES.FORGOT)) =
      reviews.countP (fun r => GRADES.HARD ≤ r.2) := by
    apply List.countP_congr
    intro r hr
    rcases h r hr with ⟨h1, _⟩
    by_cases he : r.2 = GRADES.FORGOT
    · simp [he, GRADES.FORGOT, GRADES.HARD]
    · have h2 : GRADES.HARD ≤ r.2 := by
        simp only [GRADES.FORGOT] at he h1
        simp only [GRADES.HARD]
        omega
      simp [he, h2]
  rw [hc]
  simp [DEFAULT_LEARNING]

/-- Witness for C4_amended_correctCount at the grades [Hard, Forgot, Good]. -/
theorem C4_amended_witness :
    (applyReviews DEFAULT_LEARNING [((0:ℤ), (2:ℕ)), (5, 1), (9, 3)]).correctCount =
      ([((0:ℤ), (2:ℕ)), (5, 1), (9, 3)]).countP (fun r => GRADES.HARD ≤ r.2) :=
  C4_amended_correctCount _ (by decide)

/-- One review never drops the ease factor below 1.3. -/
theorem easeFactor_step (now : ℤ) (s : LearningState) (g : ℕ)
    (h : (1.3:ℚ) ≤ s.easeFactor) :
    (1.3:ℚ) ≤ (calculateNextReview now s g).easeFactor := by
  by_cases h1 : g = GRADES.FORGOT
  · simp [calculateNextReview, h1, le_max_iff]
  · by_cases h2 : g = GRADES.HARD
    · simp [calculateNextReview, h1, h2, GRADES.FORGOT, GRADES.HARD, le_max_iff]
    · by_cases h3 : g = GRADES.EASY
      · have hg : (calculateNextReview now s g).easeFactor = s.easeFactor + 0.15 := by
          simp [calculateNextReview, h1, h2, h3, GRADES.FORGOT, GRADES.HARD, GRADES.EASY]
        rw [hg]
        linarith
      · simpa [calculateNextReview, h1, h2, h3] using h

/-- C9: from any state with easeFactor ≥ 1.3, every intermediate and
final state under any sequence of reviews keeps easeFactor ≥ 1.3. -/
theorem C9_ease_floor (s : LearningState) (h : (1.3:ℚ) ≤ s.easeFactor)
    (reviews : List (ℤ × ℕ)) (n : ℕ) :
    (1.3:ℚ) ≤ (applyReviews s (reviews.take n)).easeFactor := by
  have inv : ∀ (l : List (ℤ × ℕ)) (st : LearningState), (1.3:ℚ) ≤ st.easeFactor →
      (1.3:ℚ) ≤ (applyReviews st l).easeFactor := by
    intro l
    induction l with
    | nil => intro st hst; simpa [applyReviews] using hst
    | cons r tl ih =>
        intro st hst
        simpa [applyReviews] using ih _ (easeFactor_step r.1 st r.2 hst)
  exact inv _ s h

/-- Witness for C9_ease_floor at the default state and one Forgot review. -/
theorem C9_ease_floor_witness :
    (1.3:ℚ) ≤ (applyReviews DEFAULT_LEARNING ([((0:ℤ), (1:ℕ))].take 1)).easeFactor :=
  C9_ease_floor DEFAULT_LEARNING (by norm_num [DEFAULT_LEARNING]) [((0:ℤ), (1:ℕ))] 1

/-- A learning state as stored in JSON: any field may be absent (JS
`undefined`) or `null`; both are modelled as `none`. -/
structure StoredLearning where
  level : Option ℕ
  easeFactor : Option ℚ
  interval : Option ℤ
  lastReviewedAt : Option ℤ
  nextReviewAt : Option ℤ
  reviewCount : Option ℕ
  correctCount : Option ℕ
deriving DecidableEq

/-- `DEFAULT_LEARNING` in stored form. -/
def DEFAULT_STORED : StoredLearning :=
  { level := some 0
    easeFactor := some 2.5
    interval := some 0
    lastReviewedAt := none
    nextReviewAt := none
    reviewCount := some 0
    correctCount := some 0 }

/-- A notebook word entry: the word plus its (possibly absent) stored
learning state; the dictionary payload is opaque to the core. -/
structure WordEntry where
  word : String
  learning : Option StoredLearning
deriving DecidableEq

namespace Notebook

/-- `Notebook.ensureLearningFields`: installs the default learning state
on an entry only when the `learning` field is absent altogether. -/
def ensureLearningFields (entry : WordEntry) : WordEntry :=
  if entry.learning.isSome then entry
  else { entry with learning := some DEFAULT_STORED }

/-- The stored learning state a notebook entry is read with. -/
def effLearning (entry : WordEntry) : StoredLearning :=
  (ensureLearningFields entry).learning.getD DEFAULT_STORED

/-- The loop body of `Notebook.getWordsForLearning`: routes a word into
the due list or the new list, or drops it. -/
def selectStep (now : ℤ) (acc : List WordEntry × List WordEntry) (w : WordEntry) :
    List WordEntry × List WordEntry :=
  let w' := ensureLearningFields w
  let learning := effLearning w
  if learning.level = some 0 then (acc.1, acc.2 ++ [w'])
  else
    match learning.nextReviewAt with
    | some t => if t ≤ now then (acc.1 ++ [w'], acc.2) else acc
    | none => acc

/-- `Notebook.getWordsForLearning`: due words, then at most
`maxNewWords` new words. -/
def getWordsForLearning (words : List WordEntry) (maxNewWords : ℕ) (now : ℤ) :
    List WordEntry :=
  let pair := words.foldl (selectStep now) ([], [])
  pair.1 ++ pair.2.take maxNewWords

end Notebook

/-- Boolean test: the entry reads as a new word (`level === 0`). -/
def isNewEntry (w : WordEntry) : Bool :=
  (Notebook.effLearning w).level == some 0

/-- Boolean test: a `nextReviewAt` is present and it is ≤ now. -/
def hasDueTime (now : ℤ) (s : StoredLearning) : Bool :=
  match s.nextReviewAt with
  | some t => t ≤ now
  | none => false

/-- Boolean test: the entry reads as a due word (level not 0, a
`nextReviewAt` is present and it is ≤ now). -/
def isDueEntry (now : ℤ) (w : WordEntry) : Bool :=
  !(isNewEntry w) && hasDueTime now (Notebook.effLearning w)

/-- `getWordLearningState` for a category: lookup in the progress map,
keyed by the lower-cased word, with the default state as fallback. -/
def getWordLearningState (progress : String → Option StoredLearning) (word : String) :
    StoredLearning :=
  (progress word.toLower).getD DEFAULT_STORED

/-- The loop body of the category-store `getWordsForLearning`: the word
entry is paired with its attached learning state. -/
def selectStepCat (progress : String → Option StoredLearning) (now : ℤ)
    (acc : List (String × StoredLearning) × List (String × StoredLearning))
    (w : String) : List (String × StoredLearning) × List (String × StoredLearning) :=
  let learning := getWordLearningState progress w
  if learning.level = some 0 then (acc.1, acc.2 ++ [(w, learning)])
  else
    match learning.nextReviewAt with
    | some t => if t ≤ now then (acc.1 ++ [(w, learning)], acc.2) else acc
    | none => acc

/-- The category-store `getWordsForLearning`: due words, then at most
`maxNewWords` new words. -/
def getWordsForLearningCat (words : List String)
    (progress : String → Option StoredLearning) (maxNewWords : ℕ) (now : ℤ) :
    List (String × StoredLearning) :=
  let pair := words.foldl (selectStepCat progress now) ([], [])
  pair.1 ++ pair.2.take maxNewWords

/-- Boolean test for the category store: the word reads as new. -/
def isNewCat (progress : String → Option StoredLearning) (w : String) : Bool :=
  (getWordLearningState progress w).level == some 0

/-- Boolean test for the category store: the word reads as due. -/
def isDueCat (progress : String → Option StoredLearning) (now : ℤ) (w : String) : Bool :=
  !(isNewCat progress w) && hasDueTime now (getWordLearningState progress w)

/-- Installing the default learning state is idempotent. -/
theorem ensureLearningFields_idem (w : WordEntry) :
    Notebook.ensureLearningFields (Notebook.ensureLearningFields w) =
      Notebook.ensureLearningFields w := by
  cases h : w.learning <;> simp [Notebook.ensureLearningFields, h]

/-- Reading the learning state after installing the default gives the
same state as reading it directly. -/
theorem effLearning_ensure (w : WordEntry) :
    Notebook.effLearning (Notebook.ensureLearningFields w) = Notebook.effLearning w := by
  simp [Notebook.effLearning, ensureLearningFields_idem]

theorem isNewEntry_ensure (w : WordEntry) :
    isNewEntry (Notebook.ensureLearningFields w) = isNewEntry w := by
  simp [isNewEntry, effLearning_ensure]

theorem isDueEntry_ensure (now : ℤ) (w : WordEntry) :
    isDueEntry now (Notebook.ensureLearningFields w) = isDueEntry now w := by
  simp [isDueEntry, isNewEntry_ensure, effLearning_ensure]

/-- Both selection loops share this shape: classify each element as
new, due, or skipped, pushing the projection `f` of the element. -/
theorem partitionFold_eq {α β : Type} (p q : α → Bool) (f : α → β)
    (step : List β × List β → α → List β × List β)
    (hstep : ∀ acc x, step acc x =
      if p x then (acc.1, acc.2 ++ [f x])
      else if q x then (acc.1 ++ [f x], acc.2) else acc)
    (l : List α) (acc : List β × List β) :
    l.foldl step acc =
      (acc.1 ++ ((l.filter (fun x => !(p x) && q x)).map f),
       acc.2 ++ ((l.filter p).map f)) := by
  induction l generalizing acc with
  | nil => simp
  | cons x xs ih =>
      rw [List.foldl_cons, ih, hstep]
      by_cases hp : p x
      · simp [hp]
      · by_cases hq : q x <;> simp [hp, hq]

/-- The notebook selection step in the shared shape. -/
theorem selectStep_eq (now : ℤ) (acc : List WordEntry × List WordEntry) (w : WordEntry) :
    Notebook.selectStep now acc w =
      if isNewEntry w then (acc.1, acc.2 ++ [Notebook.ensureLearningFields w])
      else if hasDueTime now (Notebook.effLearning w) then
        (acc.1 ++ [Notebook.ensureLearningFields w], acc.2)
      else acc := by
  by_cases hn : (Notebook.effLearning w).level = some 0
  · simp [Notebook.selectStep, isNewEntry, hn]
  · cases hr : (Notebook.effLearning w).nextReviewAt with
    | none => simp [Notebook.selectStep, isNewEntry, hasDueTime, hn, hr]
    | some t =>
        by_cases ht : t ≤ now <;>
          simp [Notebook.selectStep, isNewEntry, hasDueTime, hn, hr, ht]

/-- The category selection step in the shared shape. -/
theorem selectStepCat_eq (progress : String → Option StoredLearning) (now : ℤ)
    (acc : List (String × StoredLearning) × List (String × StoredLearning)) (w : String) :
    selectStepCat progress now acc w =
      if isNewCat progress w then
        (acc.1, acc.2 ++ [(w, getWordLearningState progress w)])
      else if hasDueTime now (getWordLearningState progress w) then
        (acc.1 ++ [(w, getWordLearningState progress w)], acc.2)
      else acc := by
  by_cases hn : (getWordLearningState progress w).level = some 0
  · simp [selectStepCat, isNewCat, hn]
  · cases hr : (getWordLearningState progress w).nextReviewAt with
    | none => simp [selectStepCat, isNewCat, hasDueTime, hn, hr]
    | some t =>
        by_cases ht : t ≤ now <;>
          simp [selectStepCat, isNewCat, hasDueTime, hn, hr, ht]

/-- The notebook selection, closed form: due words in order, then the
first `maxNewWords` new words in order. -/
theorem getWordsForLearning_eq (words : List WordEntry) (maxNewWords : ℕ) (now : ℤ) :
    Notebook.getWordsForLearning words maxNewWords now =
      (words.filter (isDueEntry now)).map Notebook.ensureLearningFields
        ++ ((words.filter isNewEntry).take maxNewWords).map Notebook.ensureLearningFields := by
  unfold Notebook.getWordsForLearning
  rw [partitionFold_eq isNewEntry (fun w => hasDueTime now (Notebook.effLearning w))
    Notebook.ensureLearningFields _ (selectStep_eq now) words ([], [])]
  have hdue : (fun x => !(isNewEntry x) && hasDueTime now (Notebook.effLearning x)) =
      isDueEntry now := by
    funext x
    simp [isDueEntry]
  rw [hdue]
  simp [List.map_take]

/-- The category selection, closed form. -/
theorem getWordsForLearningCat_eq (words : List String)
    (progress : String → Option StoredLearning) (maxNewWords : ℕ) (now : ℤ) :
    getWordsForLearningCat words progress maxNewWords now =
      (words.filter (isDueCat progress now)).map
          (fun w => (w, getWordLearningState progress w))
        ++ ((words.filter (isNewCat progress)).take maxNewWords).map
          (fun w => (w, getWordLearningState progress w)) := by
  unfold getWordsForLearningCat
  rw [partitionFold_eq (isNewCat progress)
    (fun w => hasDueTime now (getWordLearningState progress w))
    (fun w => (w, getWordLearningState progress w)) _
    (selectStepCat_eq progress now) words ([], [])]
  have hdue : (fun x => !(isNewCat progress x) && hasDueTime now (getWordLearningState progress x)) =
      isDueCat progress now := by
    funext x
    simp [isDueCat]
  rw [hdue]
  simp [List.map_take]

/-- An entry that is due at time 0: level 2, review timestamp passed. -/
def dueExampleEntry : WordEntry :=
  ⟨"overdue", some { DEFAULT_STORED with level := some 2, nextReviewAt := some (-1) }⟩

/-- An entry that is new: the default stored learning state. -/
def newExampleEntry : WordEntry :=
  ⟨"fresh", some DEFAULT_STORED⟩

/-- C5: selection returns exactly the due words in collection order
followed by the first maxNewWords new words in collection order, for
both the notebook store and the category store; every selected word is
due or new (none is level > 0 but not yet due); and with 3 due words
and 20 new words and maxNewWords = 10 the session gets exactly 13
words, due first. -/
theorem C5_selection (words : List WordEntry) (wordsCat : List String)
    (progress : String → Option StoredLearning) (maxNewWords : ℕ) (now : ℤ) :
    Notebook.getWordsForLearning words maxNewWords now =
      (words.filter (isDueEntry now)).map Notebook.ensureLearningFields
        ++ ((words.filter isNewEntry).take maxNewWords).map Notebook.ensureLearningFields
    ∧ (Notebook.getWordsForLearning words maxNewWords now).all
        (fun w => isDueEntry now w || isNewEntry w)
    ∧ getWordsForLearningCat wordsCat progress maxNewWords now =
        (wordsCat.filter (isDueCat progress now)).map
            (fun w => (w, getWordLearningState progress w))
          ++ ((wordsCat.filter (isNewCat progress)).take maxNewWords).map
            (fun w => (w, getWordLearningState progress w))
    ∧ (Notebook.getWordsForLearning
        (List.replicate 3 dueExampleEntry ++ List.replicate 20 newExampleEntry)
        10 0).length = 13
    ∧ Notebook.getWordsForLearning
        (List.replicate 3 dueExampleEntry ++ List.replicate 20 newExampleEntry) 10 0 =
        List.replicate 3 dueExampleEntry ++ List.replicate 10 newExampleEntry := by
  refine ⟨getWordsForLearning_eq words maxNewWords now, ?_,
    getWordsForLearningCat_eq wordsCat progress maxNewWords now, ?_, ?_⟩
  · rw [List.all_eq_true]
    intro w hw
    rw [getWordsForLearning_eq] at hw
    rcases List.mem_append.mp hw with h | h
    · rcases List.mem_map.mp h with ⟨x, hx, rfl⟩
      have hd := (List.mem_filter.mp hx).2
      simp [isDueEntry_ensure, hd]
    · rcases List.mem_map.mp h with ⟨x, hx, rfl⟩
      have hn := (List.mem_filter.mp (List.mem_of_mem_take hx)).2
      simp [isNewEntry_ensure, hn]
  · decide
  · rfl

/-- `stats.byLevel[learning.level]++`.  A missing or out-of-range level
would address a stray array slot in the source; it is unreachable under
the well-formedness hypotheses used below, where the slot exists. -/
def bumpLevel (byLevel : List ℕ) (level : Option ℕ) : List ℕ :=
  match level with
  | some l => byLevel.set l (byLevel.getD l 0 + 1)
  | none => byLevel

/-- The statistics record returned by `Notebook.getLearningStats`:
total, 6-bucket level histogram, due-today count, new count.  The
notebook variant has no `mastered` field. -/
structure NotebookStats where
  total : ℕ
  byLevel : List ℕ
  dueToday : ℕ
  newAvailable : ℕ
deriving DecidableEq

/-- The statistics record returned by the category store, which also
carries `mastered`. -/
structure CategoryStats where
  total : ℕ
  byLevel : List ℕ
  dueToday : ℕ
  newAvailable : ℕ
  mastered : ℕ
deriving DecidableEq

/-- Loop body of `Notebook.getLearningStats`: note `dueToday` is only
counted in the `else` branch, i.e. for words whose level is not 0. -/
def Notebook.statStep (now : ℤ) (stats : NotebookStats) (w : WordEntry) : NotebookStats :=
  let learning := Notebook.effLearning w
  let stats := { stats with byLevel := bumpLevel stats.byLevel learning.level }
  if learning.level = some 0 then
    { stats with newAvailable := stats.newAvailable + 1 }
  else
    match learning.nextReviewAt with
    | some t => if t ≤ now then { stats with dueToday := stats.dueToday + 1 } else stats
    | none => stats

/-- `Notebook.getLearningStats`. -/
def Notebook.getLearningStats (words : List WordEntry) (now : ℤ) : NotebookStats :=
  words.foldl (Notebook.statStep now)
    { total := words.length
      byLevel := [0, 0, 0, 0, 0, 0]
      dueToday := 0
      newAvailable := 0 }

/-- Loop body of the category `getLearningStats`: `mastered` is counted
in the level-5 branch, and `dueToday` is counted for every word with a
passed `nextReviewAt`, independent of its level. -/
def statStepCat (progress : String → Option StoredLearning) (now : ℤ)
    (stats : CategoryStats) (w : String) : CategoryStats :=
  let learning := getWordLearningState progress w
  let stats := { stats with byLevel := bumpLevel stats.byLevel learning.level }
  let stats :=
    if learning.level = some 0 then
      { stats with newAvailable := stats.newAvailable + 1 }
    else if learning.level = some 5 then
      { stats with mastered := stats.mastered + 1 }
    else stats
  match learning.nextReviewAt with
  | some t => if t ≤ now then { stats with dueToday := stats.dueToday + 1 } else stats
  | none => stats

/-- The category `getLearningStats`. -/
def getLearningStatsCat (words : List String)
    (progress : String → Option StoredLearning) (now : ℤ) : CategoryStats :=
  words.foldl (statStepCat progress now)
    { total := words.length
      byLevel := [0, 0, 0, 0, 0, 0]
      dueToday := 0
      newAvailable := 0
      mastered := 0 }

/-- A stored level is well-formed when present and at most 5. -/
def levelWellFormed (s : StoredLearning) : Bool :=
  s.level.getD 6 ≤ 5

/-- Field behaviour of one notebook statistics step. -/
theorem statStep_fields (now : ℤ) (st : NotebookStats) (w : WordEntry) :
    (Notebook.statStep now st w).total = st.total
    ∧ (Notebook.statStep now st w).byLevel =
        bumpLevel st.byLevel (Notebook.effLearning w).level
    ∧ (Notebook.statStep now st w).newAvailable =
        st.newAvailable + (if isNewEntry w then 1 else 0)
    ∧ (Notebook.statStep now st w).dueToday =
        st.dueToday + (if isDueEntry now w then 1 else 0) := by
  by_cases hn : (Notebook.effLearning w).level = some 0
  · simp [Notebook.statStep, isNewEntry, isDueEntry, hn]
  · cases hr : (Notebook.effLearning w).nextReviewAt with
    | none => simp [Notebook.statStep, isNewEntry, isDueEntry, hasDueTime, hn, hr]
    | some t =>
        by_cases ht : t ≤ now <;>
          simp [Notebook.statStep, isNewEntry, isDueEntry, hasDueTime, hn, hr, ht]

/-- Field behaviour of one category statistics step. -/
theorem statStepCat_fields (progress : String → Option StoredLearning) (now : ℤ)
    (st : CategoryStats) (w : String) :
    (statStepCat progress now st w).total = st.total
    ∧ (statStepCat progress now st w).byLevel =
        bumpLevel st.byLevel (getWordLearningState progress w).level
    ∧ (statStepCat progress now st w).newAvailable =
        st.newAvailable + (if isNewCat progress w then 1 else 0)
    ∧ (statStepCat progress now st w).mastered =
        st.mastered +
          (if (getWordLearningState progress w).level == some 5 then 1 else 0)
    ∧ (statStepCat progress now st w).dueToday =
        st.dueToday +
          (if hasDueTime now (getWordLearningState progress w) then 1 else 0) := by
  by_cases hn : (getWordLearningState progress w).level = some 0
  · cases hr : (getWordLearningState progress w).nextReviewAt with
    | none => simp [statStepCat, isNewCat, hasDueTime, hn, hr]
    | some t =>
        by_cases ht : t ≤ now <;> simp [statStepCat, isNewCat, hasDueTime, hn, hr, ht]
  · by_cases h5 : (getWordLearningState progress w).level = some 5 <;>
      · cases hr : (getWordLearningState progress w).nextReviewAt with
        | none => simp [statStepCat, isNewCat, hasDueTime, hn, h5, hr]
        | some t =>
            by_cases ht : t ≤ now <;>
              simp [statStepCat, isNewCat, hasDueTime, hn, h5, hr, ht]

/-- `bumpLevel` preserves the histogram length. -/
theorem bumpLevel_length (b : List ℕ) (lv : Option ℕ) :
    (bumpLevel b lv).length = b.length := by
  cases lv <;> simp [bumpLevel]

/-- Reading a bumped histogram: the bumped slot (when the level is a
well-formed index) gains one, every other slot is unchanged. -/
theorem bumpLevel_getD (b : List ℕ) (l i : ℕ) (hl : l < b.length) :
    (bumpLevel b (some l)).getD i 0 =
      b.getD i 0 + (if l = i then 1 else 0) := by
  by_cases he : l = i
  · subst he
    rw [List.getD_eq_getElem _ _ (by rw [bumpLevel_length]; exact hl)]
    simp [bumpLevel, List.getElem_set, List.getD_eq_getElem _ _ hl]
  · by_cases hi : i < b.length
    · rw [List.getD_eq_getElem _ _ (by rw [bumpLevel_length]; exact hi),
        List.getD_eq_getElem _ _ hi]
      simp [bumpLevel, List.getElem_set, he]
    · rw [List.getD_eq_default _ _ (by rw [bumpLevel_length]; exact Nat.le_of_not_lt hi),
        List.getD_eq_default _ _ (Nat.le_of_not_lt hi)]
      simp [he]

/-- The notebook statistics fold, field by field. -/
theorem statFold_fields (now : ℤ) (ws : List WordEntry) (acc : NotebookStats) :
    (ws.foldl (Notebook.statStep now) acc).total = acc.total
    ∧ (ws.foldl (Notebook.statStep now) acc).byLevel =
        ws.foldl (fun b w => bumpLevel b (Notebook.effLearning w).level) acc.byLevel
    ∧ (ws.foldl (Notebook.statStep now) acc).newAvailable =
        acc.newAvailable + ws.countP isNewEntry
    ∧ (ws.foldl (Notebook.statStep now) acc).dueToday =
        acc.dueToday + ws.countP (isDueEntry now) := by
  induction ws generalizing acc with
  | nil => simp
  | cons w ws ih =>
      obtain ⟨h1, h2, h3, h4⟩ := statStep_fields now acc w
      obtain ⟨g1, g2, g3, g4⟩ := ih (Notebook.statStep now acc w)
      refine ⟨?_, ?_, ?_, ?_⟩
      · rw [List.foldl_cons, g1, h1]
      · rw [List.foldl_cons, g2, h2, List.foldl_cons]
      · rw [List.foldl_cons, g3, h3, List.countP_cons]
        by_cases hn : isNewEntry w <;> simp [hn] <;> omega
      · rw [List.foldl_cons, g4, h4, List.countP_cons]
        by_cases hd : isDueEntry now w <;> simp [hd] <;> omega

/-- The category statistics fold, field by field. -/
theorem statFoldCat_fields (progress : String → Option StoredLearning) (now : ℤ)
    (ws : List String) (acc : CategoryStats) :
    (ws.foldl (statStepCat progress now) acc).total = acc.total
    ∧ (ws.foldl (statStepCat progress now) acc).byLevel =
        ws.foldl (fun b w => bumpLevel b (getWordLearningState progress w).level) acc.byLevel
    ∧ (ws.foldl (statStepCat progress now) acc).newAvailable =
        acc.newAvailable + ws.countP (isNewCat progress)
    ∧ (ws.foldl (statStepCat progress now) acc).mastered =
        acc.mastered +
          ws.countP (fun w => (getWordLearningState progress w).level == some 5)
    ∧ (ws.foldl (statStepCat progress now) acc).dueToday =
        acc.dueToday +
          ws.countP (fun w => hasDueTime now (getWordLearningState progress w)) := by
  induction ws generalizing acc with
  | nil => simp
  | cons w ws ih =>
      obtain ⟨h1, h2, h3, h4, h5⟩ := statStepCat_fields progress now acc w
      obtain ⟨g1, g2, g3, g4, g5⟩ := ih (statStepCat progress now acc w)
      refine ⟨?_, ?_, ?_, ?_, ?_⟩
      · rw [List.foldl_cons, g1, h1]
      · rw [List.foldl_cons, g2, h2, List.foldl_cons]
      · rw [List.foldl_cons, g3, h3, List.countP_cons]
        by_cases hn : isNewCat progress w <;> simp [hn] <;> omega
      · rw [List.foldl_cons, g4, h4, List.countP_cons]
        by_cases hm : (getWordLearningState progress w).level == some 5 <;>
          simp [hm] <;> omega
      · rw [List.foldl_cons, g5, h5, List.countP_cons]
        by_cases hd : hasDueTime now (getWordLearningState progress w) <;>
          simp [hd] <;> omega

/-- Folding `bumpLevel` preserves the histogram length. -/
theorem bumpFold_length {α : Type} (g : α → Option ℕ) (ws : List α) (b : List ℕ) :
    (ws.foldl (fun bl w => bumpLevel bl (g w)) b).length = b.length := by
  induction ws generalizing b with
  | nil => rfl
  | cons w ws ih => rw [List.foldl_cons, ih, bumpLevel_length]

/-- Folding `bumpLevel` over well-formed levels sets slot `i` of the
histogram to its initial value plus the number of level-`i` elements. -/
theorem bumpFold_getD {α : Type} (g : α → Option ℕ) (ws : List α) (b : List ℕ) (i : ℕ)
    (hwf : ∀ w ∈ ws, ∃ l, g w = some l ∧ l < b.length) :
    (ws.foldl (fun bl w => bumpLevel bl (g w)) b).getD i 0 =
      b.getD i 0 + ws.countP (fun w => g w == some i) := by
  induction ws generalizing b with
  | nil => simp
  | cons w ws ih =>
      obtain ⟨l, hl, hlen⟩ := hwf w (by simp)
      rw [List.foldl_cons, ih _ (fun x hx => by
        obtain ⟨lx, hx1, hx2⟩ := hwf x (List.mem_cons_of_mem _ hx)
        exact ⟨lx, hx1, by rwa [bumpLevel_length]⟩)]
      rw [hl, bumpLevel_getD _ _ _ hlen, List.countP_cons]
      by_cases he : l = i
      · have hb : (g w == some i) = true := by simp [hl, he]
        simp [hb, he] <;> omega
      · have hb : (g w == some i) = false := by simp [hl, he]
        simp [hb, he]

/-- A list of length 6 is the literal list of its six entries. -/
theorem eq_list_of_length_six (l : List ℕ) (h : l.length = 6) :
    l = [l.getD 0 0, l.getD 1 0, l.getD 2 0, l.getD 3 0, l.getD 4 0, l.getD 5 0] :=
  match l, h with
  | [_, _, _, _, _, _], _ => rfl
  | [], h => by simp at h
  | [_], h => by simp at h
  | [_, _], h => by simp at h
  | [_, _, _], h => by simp at h
  | [_, _, _, _], h => by simp at h
  | [_, _, _, _, _], h => by simp at h
  | _ :: _ :: _ :: _ :: _ :: _ :: _ :: _, h => by simp at h <;> omega

/-- Closed form of the category statistics under well-formed levels. -/
theorem getLearningStatsCat_eq (wordsCat : List String)
    (progress : String → Option StoredLearning) (now : ℤ)
    (hcat : wordsCat.all (fun w => levelWellFormed (getWordLearningState progress w))) :
    (getLearningStatsCat wordsCat progress now).total = wordsCat.length
    ∧ (getLearningStatsCat wordsCat progress now).byLevel =
        [wordsCat.countP (fun w => (getWordLearningState progress w).level == some 0),
         wordsCat.countP (fun w => (getWordLearningState progress w).level == some 1),
         wordsCat.countP (fun w => (getWordLearningState progress w).level == some 2),
         wordsCat.countP (fun w => (getWordLearningState progress w).level == some 3),
         wordsCat.countP (fun w => (getWordLearningState progress w).level == some 4),
         wordsCat.countP (fun w => (getWordLearningState progress w).level == some 5)]
    ∧ (getLearningStatsCat wordsCat progress now).dueToday =
        wordsCat.countP (fun w => hasDueTime now (getWordLearningState progress w))
    ∧ (getLearningStatsCat wordsCat progress now).newAvailable =
        wordsCat.countP (isNewCat progress)
    ∧ (getLearningStatsCat wordsCat progress now).mastered =
        wordsCat.countP (fun w => (getWordLearningState progress w).level == some 5) := by
  have hwf : ∀ w ∈ wordsCat, ∃ l, (getWordLearningState progress w).level = some l ∧
      l < ([0, 0, 0, 0, 0, 0] : List ℕ).length := by
    intro w hw
    have hww := (List.all_eq_true.mp hcat) w hw
    unfold levelWellFormed at hww
    cases hl : (getWordLearningState progress w).level with
    | none => rw [hl] at hww; simp at hww
    | some l =>
        refine ⟨l, rfl, ?_⟩
        rw [hl] at hww
        simp at hww
        simp only [List.length_cons, List.length_nil]
        omega
  obtain ⟨c1, c2, c3, c4, c5⟩ := statFoldCat_fields progress now wordsCat
    { total := wordsCat.length
      byLevel := [0, 0, 0, 0, 0, 0]
      dueToday := 0
      newAvailable := 0
      mastered := 0 }
  have hunfold : getLearningStatsCat wordsCat progress now =
      wordsCat.foldl (statStepCat progress now)
        { total := wordsCat.length
          byLevel := [0, 0, 0, 0, 0, 0]
          dueToday := 0
          newAvailable := 0
          mastered := 0 } := rfl
  refine ⟨by rw [hunfold, c1], ?_, by rw [hunfold, c5]; simp, by rw [hunfold, c3]; simp,
    by rw [hunfold, c4]; simp⟩
  rw [hunfold, c2]
  have hlen : (wordsCat.foldl
      (fun b w => bumpLevel b (getWordLearningState progress w).level)
      [0, 0, 0, 0, 0, 0]).length = 6 :=
    bumpFold_length (fun w => (getWordLearningState progress w).level) wordsCat _
  rw [eq_list_of_length_six _ hlen]
  rw [bumpFold_getD (fun w => (getWordLearningState progress w).level) _ _ 0 hwf,
    bumpFold_getD (fun w => (getWordLearningState progress w).level) _ _ 1 hwf,
    bumpFold_getD (fun w => (getWordLearningState progress w).level) _ _ 2 hwf,
    bumpFold_getD (fun w => (getWordLearningState progress w).level) _ _ 3 hwf,
    bumpFold_getD (fun w => (getWordLearningState progress w).level) _ _ 4 hwf,
    bumpFold_getD (fun w => (getWordLearningState progress w).level) _ _ 5 hwf]
  simp

/-- Closed form of the notebook statistics under well-formed levels:
`dueToday` here counts only words whose level is not 0, and the record
has no `mastered` field. -/
theorem getLearningStats_eq (words : List WordEntry) (now : ℤ)
    (hnb : words.all (fun w => levelWellFormed (Notebook.effLearning w))) :
    (Notebook.getLearningStats words now).total = words.length
    ∧ (Notebook.getLearningStats words now).byLevel =
        [words.countP (fun w => (Notebook.effLearning w).level == some 0),
         words.countP (fun w => (Notebook.effLearning w).level == some 1),
         words.countP (fun w => (Notebook.effLearning w).level == some 2),
         words.countP (fun w => (Notebook.effLearning w).level == some 3),
         words.countP (fun w => (Notebook.effLearning w).level == some 4),
         words.countP (fun w => (Notebook.effLearning w).level == some 5)]
    ∧ (Notebook.getLearningStats words now).dueToday = words.countP (isDueEntry now)
    ∧ (Notebook.getLearningStats words now).newAvailable = words.countP isNewEntry := by
  have hwf : ∀ w ∈ words, ∃ l, (Notebook.effLearning w).level = some l ∧
      l < ([0, 0, 0, 0, 0, 0] : List ℕ).length := by
    intro w hw
    have hww := (List.all_eq_true.mp hnb) w hw
    unfold levelWellFormed at hww
    cases hl : (Notebook.effLearning w).level with
    | none => rw [hl] at hww; simp at hww
    | some l =>
        refine ⟨l, rfl, ?_⟩
        rw [hl] at hww
        simp at hww
        simp only [List.length_cons, List.length_nil]
        omega
  obtain ⟨c1, c2, c3, c4⟩ := statFold_fields now words
    { total := words.length
      byLevel := [0, 0, 0, 0, 0, 0]
      dueToday := 0
      newAvailable := 0 }
  have hunfold : Notebook.getLearningStats words now =
      words.foldl (Notebook.statStep now)
        { total := words.length
          byLevel := [0, 0, 0, 0, 0, 0]
          dueToday := 0
          newAvailable := 0 } := rfl
  refine ⟨by rw [hunfold, c1], ?_, by rw [hunfold, c4]; simp, by rw [hunfold, c3]; simp⟩
  rw [hunfold, c2]
  have hlen : (words.foldl
      (fun b w => bumpLevel b (Notebook.effLearning w).level)
      [0, 0, 0, 0, 0, 0]).length = 6 :=
    bumpFold_length (fun w => (Notebook.effLearning w).level) words _
  rw [eq_list_of_length_six _ hlen]
  rw [bumpFold_getD (fun w => (Notebook.effLearning w).level) _ _ 0 hwf,
    bumpFold_getD (fun w => (Notebook.effLearning w).level) _ _ 1 hwf,
    bumpFold_getD (fun w => (Notebook.effLearning w).level) _ _ 2 hwf,
    bumpFold_getD (fun w => (Notebook.effLearning w).level) _ _ 3 hwf,
    bumpFold_getD (fun w => (Notebook.effLearning w).level) _ _ 4 hwf,
    bumpFold_getD (fun w => (Notebook.effLearning w).level) _ _ 5 hwf]
  simp

/-- C6 amended: for the category store the statistics are total = word
count, byLevel = the 6-bucket histogram of levels 0–5, dueToday = count
of words whose next review is ≤ now, newAvailable = count of level-0
words, mastered = count of level-5 words.  The notebook store returns
total, byLevel and newAvailable the same way but has no mastered field,
and its dueToday counts only words whose level is not 0. -/
theorem C6_statistics (words : List WordEntry) (wordsCat : List String)
    (progress : String → Option StoredLearning) (now : ℤ)
    (hnb : words.all (fun w => levelWellFormed (Notebook.effLearning w)))
    (hcat : wordsCat.all (fun w => levelWellFormed (getWordLearningState progress w))) :
    ((getLearningStatsCat wordsCat progress now).total = wordsCat.length
      ∧ (getLearningStatsCat wordsCat progress now).byLevel =
          [wordsCat.countP (fun w => (getWordLearningState progress w).level == some 0),
           wordsCat.countP (fun w => (getWordLearningState progress w).level == some 1),
           wordsCat.countP (fun w => (getWordLearningState progress w).level == some 2),
           wordsCat.countP (fun w => (getWordLearningState progress w).level == some 3),
           wordsCat.countP (fun w => (getWordLearningState progress w).level == some 4),
           wordsCat.countP (fun w => (getWordLearningState progress w).level == some 5)]
      ∧ (getLearningStatsCat wordsCat progress now).dueToday =
          wordsCat.countP (fun w => hasDueTime now (getWordLearningState progress w))
      ∧ (getLearningStatsCat wordsCat progress now).newAvailable =
          wordsCat.countP (isNewCat progress)
      ∧ (getLearningStatsCat wordsCat progress now).mastered =
          wordsCat.countP (fun w => (getWordLearningState progress w).level == some 5))
    ∧ ((Notebook.getLearningStats words now).total = words.length
      ∧ (Notebook.getLearningStats words now).byLevel =
          [words.countP (fun w => (Notebook.effLearning w).level == some 0),
           words.countP (fun w => (Notebook.effLearning w).level == some 1),
           words.countP (fun w => (Notebook.effLearning w).level == some 2),
           words.countP (fun w => (Notebook.effLearning w).level == some 3),
           words.countP (fun w => (Notebook.effLearning w).level == some 4),
           words.countP (fun w => (Notebook.effLearning w).level == some 5)]
      ∧ (Notebook.getLearningStats words now).dueToday = words.countP (isDueEntry now)
      ∧ (Notebook.getLearningStats words now).newAvailable = words.countP isNewEntry) :=
  ⟨getLearningStatsCat_eq wordsCat progress now hcat,
   getLearningStats_eq words now hnb⟩

/-- Witness for C6_statistics at a one-word notebook and a one-word
category with empty progress. -/
theorem C6_statistics_witness :
    (getLearningStatsCat ["abc"] (fun x => none) 0).total =
      (["abc"] : List String).length
    ∧ (Notebook.getLearningStats [dueExampleEntry] 0).dueToday =
        [dueExampleEntry].countP (isDueEntry 0) :=
  ⟨(C6_statistics [dueExampleEntry] ["abc"] (fun x => none) 0
      (by decide) (by decide)).1.1,
   (C6_statistics [dueExampleEntry] ["abc"] (fun x => none) 0
      (by decide) (by decide)).2.2.2.1⟩

/-- A level-0 word whose stored `nextReviewAt` has passed. -/
def levelZeroDueEntry : WordEntry :=
  ⟨"zeroDue", some { DEFAULT_STORED with nextReviewAt := some 0 }⟩

/-- C6 as stated is false for the notebook store: a level-0 word whose
next review time has passed is not counted in `dueToday` there (the
count happens in the else-branch of the level-0 test), while the claim
says dueToday counts every word with next review ≤ now. -/
theorem C6_counterexample :
    (Notebook.getLearningStats [levelZeroDueEntry] 5).dueToday = 0
    ∧ [levelZeroDueEntry].countP
        (fun w => hasDueTime 5 (Notebook.effLearning w)) = 1 := by
  constructor <;> decide

/-- The repair the spec describes: an entry with an absent learning
state carries the default; a present one is kept as-is. -/
def withDefaultLearning (w : WordEntry) : WordEntry :=
  { w with learning := some (w.learning.getD DEFAULT_STORED) }

/-- The code's `ensureLearningFields` is exactly the whole-state repair:
it installs the default precisely when `learning` is absent. -/
theorem ensure_eq_withDefault (w : WordEntry) :
    Notebook.ensureLearningFields w = withDefaultLearning w := by
  obtain ⟨wd, l⟩ := w
  cases l <;> simp [Notebook.ensureLearningFields, withDefaultLearning]

theorem effLearning_withDefault (w : WordEntry) :
    Notebook.effLearning (withDefaultLearning w) = Notebook.effLearning w := by
  rw [← ensure_eq_withDefault, effLearning_ensure]

/-- The notebook statistics step reads an entry only through its
effective learning state. -/
theorem statStep_withDefault (now : ℤ) (st : NotebookStats) (w : WordEntry) :
    Notebook.statStep now st (withDefaultLearning w) = Notebook.statStep now st w := by
  simp only [Notebook.statStep, effLearning_withDefault]

/-- C7 amended: the fallback to the default LearningState applies only
to an entry whose stored learning state is absent altogether; such
entries are treated by selection and statistics exactly as if they
carried the default state (a state with some fields present and others
missing is used as-is — see the counterexample). -/
theorem C7_default_fallback (words : List WordEntry) (maxNewWords : ℕ) (now : ℤ)
    (w : WordEntry) :
    Notebook.ensureLearningFields w = withDefaultLearning w
    ∧ Notebook.getWordsForLearning (words.map withDefaultLearning) maxNewWords now =
        Notebook.getWordsForLearning words maxNewWords now
    ∧ Notebook.getLearningStats (words.map withDefaultLearning) now =
        Notebook.getLearningStats words now := by
  have hfun : withDefaultLearning = Notebook.ensureLearningFields :=
    funext (fun x => (ensure_eq_withDefault x).symm)
  refine ⟨ensure_eq_withDefault w, ?_, ?_⟩
  · rw [getWordsForLearning_eq, getWordsForLearning_eq, hfun]
    rw [List.filter_map, List.filter_map]
    simp only [List.map_map, List.map_take]
    have he : Notebook.ensureLearningFields ∘ Notebook.ensureLearningFields =
        Notebook.ensureLearningFields := funext (fun x => ensureLearningFields_idem x)
    have hd : isDueEntry now ∘ Notebook.ensureLearningFields = isDueEntry now :=
      funext (fun x => isDueEntry_ensure now x)
    have hn : isNewEntry ∘ Notebook.ensureLearningFields = isNewEntry :=
      funext (fun x => isNewEntry_ensure x)
    rw [he, hd, hn]
  · unfold Notebook.getLearningStats
    rw [List.length_map, List.foldl_map]
    have hstep : (fun (st : NotebookStats) (x : WordEntry) =>
        Notebook.statStep now st (withDefaultLearning x)) = Notebook.statStep now :=
      funext (fun st => funext (fun x => statStep_withDefault now st x))
    rw [hstep]

/-- A malformed stored state: `level` is present (3) but the other six
fields are missing. -/
def malformedEntry : WordEntry :=
  ⟨"broken", some ⟨some 3, none, none, none, none, none, none⟩⟩

/-- C7 as stated is false: a stored state with fields missing (but not
absent altogether) is used as-is, not replaced by the default.  The
malformed level-3 entry is excluded from selection and not counted as
new, while an entry carrying the default state is selected as a new
word and counted. -/
theorem C7_counterexample :
    Notebook.getWordsForLearning [malformedEntry] 10 0 = []
    ∧ (Notebook.getWordsForLearning [⟨"broken", some DEFAULT_STORED⟩] 10 0).length = 1
    ∧ (Notebook.getLearningStats [malformedEntry] 0).newAvailable = 0
    ∧ (Notebook.getLearningStats [⟨"broken", some DEFAULT_STORED⟩] 0).newAvailable = 1 := by
  refine ⟨?_, ?_, ?_, ?_⟩ <;> decide

/-- A recorded flashcard result: `{word, grade, wasRevealed}`. -/
structure SessionResult where
  word : String
  grade : ℕ
  wasRevealed : Bool
deriving DecidableEq

/-- The record returned by `LearningSession.getStats`. -/
structure SessionStats where
  reviewed : ℕ
  correct : ℕ
  needPractice : ℕ
  percentage : ℤ
deriving DecidableEq

/-- `LearningSession`: fixed word queue, cursor, append-only results,
reveal flag. -/
structure LearningSession where
  words : List WordEntry
  currentIndex : ℕ
  results : List SessionResult
  revealed : Bool
deriving DecidableEq

/-- The `LearningSession` constructor. -/
def LearningSession.new (words : List WordEntry) : LearningSession :=
  { words := words, currentIndex := 0, results := [], revealed := false }

/-- `currentWord`: `this.words[this.currentIndex] || null`. -/
def LearningSession.currentWord (s : LearningSession) : Option WordEntry :=
  s.words.get? s.currentIndex

/-- `isComplete`: the cursor has reached the end of the queue. -/
def LearningSession.isComplete (s : LearningSession) : Bool :=
  s.words.length ≤ s.currentIndex

/-- `reveal`. -/
def LearningSession.reveal (s : LearningSession) : LearningSession :=
  { s with revealed := true }

/-- `recordGrade`: reads `this.currentWord.word`; when `currentWord` is
null the source dereferences null and throws, modelled as `none`. -/
def LearningSession.recordGrade (s : LearningSession) (grade : ℕ) :
    Option LearningSession :=
  match s.currentWord with
  | none => none
  | some w => some
      { s with
        results := s.results ++
          [{ word := w.word, grade := grade, wasRevealed := s.revealed }]
        currentIndex := s.currentIndex + 1
        revealed := false }

/-- `getStats`: reviewed, correct (grade ≥ Good), needPractice
(grade < Good), rounded percentage with a zero-division guard. -/
def LearningSession.getStats (s : LearningSession) : SessionStats :=
  let correct := (s.results.filter (fun r => GRADES.GOOD ≤ r.grade)).length
  let needPractice := (s.results.filter (fun r => r.grade < GRADES.GOOD)).length
  { reviewed := s.results.length
    correct := correct
    needPractice := needPractice
    percentage :=
      if 0 < s.results.length then
        jsRound (((correct : ℚ) / s.results.length) * 100)
      else 0 }

/-- A three-card session graded Good, Easy, Forgot in order. -/
def exampleSession : Option LearningSession :=
  ((LearningSession.new [⟨"a", none⟩, ⟨"b", none⟩, ⟨"c", none⟩]).recordGrade
      GRADES.GOOD).bind
    (fun s => (s.recordGrade GRADES.EASY).bind
      (fun s => s.recordGrade GRADES.FORGOT))

/-- C8: getStats returns reviewed = results.length, correct = count of
grades ≥ Good, needPractice = count of grades < Good, percentage =
round(correct/reviewed × 100) with 0 when reviewed is 0; grades
[Good, Easy, Forgot] give reviewed 3, correct 2, needPractice 1,
percentage 67. -/
theorem C8_session_stats (s : LearningSession) :
    (s.getStats).reviewed = s.results.length
    ∧ (s.getStats).correct = s.results.countP (fun r => GRADES.GOOD ≤ r.grade)
    ∧ (s.getStats).needPractice = s.results.countP (fun r => r.grade < GRADES.GOOD)
    ∧ (s.getStats).percentage =
        (if 0 < s.results.length then
          jsRound (((s.results.countP (fun r => GRADES.GOOD ≤ r.grade) : ℚ) /
            s.results.length) * 100)
        else 0)
    ∧ exampleSession.map LearningSession.getStats =
        some { reviewed := 3, correct := 2, needPractice := 1, percentage := 67 } := by
  refine ⟨rfl, ?_, ?_, ?_, ?_⟩
  · simp [LearningSession.getStats, List.countP_eq_length_filter]
  · simp [LearningSession.getStats, List.countP_eq_length_filter]
  · simp [LearningSession.getStats, List.countP_eq_length_filter]
  · have hs : exampleSession = some
        { words := [⟨"a", none⟩, ⟨"b", none⟩, ⟨"c", none⟩]
          currentIndex := 3
          results := [⟨"a", GRADES.GOOD, false⟩, ⟨"b", GRADES.EASY, false⟩,
            ⟨"c", GRADES.FORGOT, false⟩]
          revealed := false } := rfl
    have hround : jsRound ((2 : ℚ) / 3 * 100) = 67 := by
      unfold jsRound
      rw [Int.floor_eq_iff]
      constructor <;> norm_num
    rw [hs]
    simp [LearningSession.getStats, GRADES.GOOD, GRADES.EASY, GRADES.FORGOT,
      List.filter, hround]

/-- C10: a complete session (cursor at or past the end) has no current
word, and recordGrade in that state fails (null dereference, modelled
as `none`) instead of recording; conversely recordGrade succeeds
exactly when the session is not complete, the precondition the REPL
establishes by checking isComplete before every card. -/
theorem C10_complete_session (s : LearningSession) (g : ℕ) :
    (s.isComplete = true ↔ s.currentWord = none)
    ∧ (s.recordGrade g).isNone = s.isComplete := by
  have hiff : s.isComplete = true ↔ s.currentWord = none := by
    simp [LearningSession.isComplete, LearningSession.currentWord, List.get?_eq_none]
  refine ⟨hiff, ?_⟩
  cases h : s.currentWord with
  | none => simp [LearningSession.recordGrade, h, hiff.mpr h]
  | some w =>
      have hf : s.isComplete = false := by
        rcases Bool.eq_false_or_eq_true s.isComplete with hb | hb
        · exact absurd (hiff.mp hb) (by simp [h])
        · exact hb
      simp [LearningSession.recordGrade, h, hf]
